import Mathlib

/-!
Verification of the search-query token editor state machine
(`useQueryBuilderState` and its supporting token-mutation functions).

The query string is modelled as a list of characters (`QStr`).  JavaScript
string primitives (`substring`, `trim`, `trimStart`, `trimEnd`) are embedded
with their clamping semantics.  Tokens carry the half-open offset span
recorded by the external parser; operations that only read `token.location`
take a token that is represented by that span.
-/

set_option autoImplicit false

/-- A query string, as a list of characters. -/
abbrev QStr := List Char

/-- JavaScript `s.substring(a, b)`: both indices are clamped to
`[0, s.length]` and swapped when out of order. -/
def jsSubstring (s : QStr) (a b : Nat) : QStr :=
  (s.take (max (min a s.length) (min b s.length))).drop
    (min (min a s.length) (min b s.length))

/-- JavaScript `s.substring(a)` (one-argument form). -/
def jsSubstringFrom (s : QStr) (a : Nat) : QStr :=
  jsSubstring s a s.length

/-- JavaScript `s.trimStart()`. -/
def jsTrimStart (s : QStr) : QStr :=
  s.dropWhile Char.isWhitespace

/-- JavaScript `s.trimEnd()`. -/
def jsTrimEnd (s : QStr) : QStr :=
  (s.reverse.dropWhile Char.isWhitespace).reverse

/-- JavaScript `s.trim()`. -/
def jsTrim (s : QStr) : QStr :=
  jsTrimStart (jsTrimEnd s)

/-- A token's `location` span: half-open character offsets
`start.offset` / `end.offset` into the query string it was parsed from. -/
structure Location where
  startOffset : Nat
  endOffset : Nat
deriving DecidableEq

/-- A token used only through its `location` field (the source functions
`removeQueryToken`, `replaceQueryToken`, `replaceTokenWithPadding` read
nothing else from `ParseResultToken` / `TokenResult<Token>`). -/
structure AnyToken where
  location : Location
deriving DecidableEq

/-- `TermOperator` from the external parser. -/
inductive TermOperator where
  | DEFAULT
  | GREATER_THAN_EQUAL
  | LESS_THAN_EQUAL
  | GREATER_THAN
  | LESS_THAN
  | EQUAL
  | NOT_EQUAL
deriving DecidableEq

/-- The kind of a filter token's value token.  A text-list or number-list
value carries its item tokens; each item's nested value may be missing,
in which case `item.value?.text ?? ''` reads as the empty string, so an
item is modelled by `Option QStr` (its text, when present).  Every other
value kind is a scalar exposing its matched `text`. -/
inductive ValueKind where
  | textList (items : List (Option QStr))
  | numberList (items : List (Option QStr))
  | scalar
deriving DecidableEq

/-- The nested value token of a filter token: its own span, its matched
text and its kind. -/
structure ValueToken where
  location : Location
  text : QStr
  kind : ValueKind
deriving DecidableEq

/-- A filter token: span, key, operator, negation flag and nested value
token. -/
structure FilterToken where
  location : Location
  key : QStr
  operator : TermOperator
  negated : Bool
  value : ValueToken
deriving DecidableEq

/-- `QueryBuilderState`: the reducer state, holding the current query. -/
structure QueryBuilderState where
  query : QStr
deriving DecidableEq

/-- `QueryBuilderActions`: the six recognized intents plus a constructor
standing for any action whose type tag is not one of the six (the
reducer's `default` arm). -/
inductive QueryBuilderAction where
  | deleteToken (token : AnyToken)
  | updateFreeText (token : AnyToken) (text : QStr)
  | updateFilterOp (token : FilterToken) (op : TermOperator)
  | updateTokenValue (token : AnyToken) (value : QStr)
  | toggleFilterValue (token : FilterToken) (value : QStr)
  | deleteLastMultiSelectFilterValue (token : FilterToken)
  | unrecognized (tag : QStr)

/-- `removeQueryToken`: delete the token's span from the query. -/
def removeQueryToken (query : QStr) (token : AnyToken) : QStr :=
  jsSubstring query 0 token.location.startOffset ++
    jsSubstringFrom query token.location.endOffset

/-- Modelled from the spec: the glyph of each operator, as used by the
external stringifier (`key:<glyph><value>`); the default operator
serializes as the empty string.  The stringifier itself
(`stringifyToken` from the search-syntax utils) is not part of this
snapshot. -/
def operatorGlyph (op : TermOperator) : QStr :=
  match op with
  | TermOperator.DEFAULT => []
  | TermOperator.GREATER_THAN_EQUAL => ['>', '=']
  | TermOperator.LESS_THAN_EQUAL => ['<', '=']
  | TermOperator.GREATER_THAN => ['>']
  | TermOperator.LESS_THAN => ['<']
  | TermOperator.EQUAL => ['=']
  | TermOperator.NOT_EQUAL => ['!', '=']

/-- Modelled from the spec: the external stringifier `stringifyToken`
(canonical re-serialization of a single filter token).  Per the spec it
must reproduce the filter's key and value unchanged, with the
operator/negation prefix in front: a negated filter serializes as
`!key:value`, otherwise `key:<glyph>value`. -/
def stringifyToken (token : FilterToken) : QStr :=
  (if token.negated then ['!'] else []) ++ token.key ++ [':'] ++
    operatorGlyph token.operator ++ token.value.text

/-- The token-field update performed in place by `modifyFilterOperator`:
`token.operator = isNotEqual ? TermOperator.DEFAULT : newOperator;
token.negated = isNotEqual`. -/
def modifiedFilterToken (token : FilterToken) (newOperator : TermOperator) :
    FilterToken :=
  { token with
      operator :=
        if newOperator = TermOperator.NOT_EQUAL then TermOperator.DEFAULT
        else newOperator
      negated := decide (newOperator = TermOperator.NOT_EQUAL) }

/-- `modifyFilterOperator`: update the token's operator/negation fields,
re-serialize the token and substitute it at its original span. -/
def modifyFilterOperator (query : QStr) (token : FilterToken)
    (newOperator : TermOperator) : QStr :=
  jsSubstring query 0 token.location.startOffset ++
    stringifyToken (modifiedFilterToken token newOperator) ++
    jsSubstringFrom query token.location.endOffset

/-- `replaceQueryToken`: substitute `value` at the given token span, with
no padding logic. -/
def replaceQueryToken (query : QStr) (tokenLocation : Location)
    (value : QStr) : QStr :=
  jsSubstring query 0 tokenLocation.startOffset ++ value ++
    jsSubstringFrom query tokenLocation.endOffset

/-- `replaceTokenWithPadding`: substitute `value` at the token span,
trimming the surrounding parts and joining with single-space
separators, then trimming the overall result. -/
def replaceTokenWithPadding (query : QStr) (tokenLocation : Location)
    (value : QStr) : QStr :=
  jsTrim (jsTrimEnd (jsSubstring query 0 tokenLocation.startOffset) ++
    [' '] ++ jsTrim value ++ [' '] ++
    jsTrimStart (jsSubstringFrom query tokenLocation.endOffset))

/-- `updateFreeText`: replace a free-text-or-spaces token (used only
through its span) with the action's text, via the padded replace. -/
def updateFreeText (state : QueryBuilderState) (token : AnyToken)
    (text : QStr) : QueryBuilderState :=
  { state with
      query := replaceTokenWithPadding state.query token.location text }

/-- One step of `Array.from(new Set(...))` insertion: append the element
unless it was already seen. -/
def jsSetAdd {α : Type} [DecidableEq α] (acc : List α) (x : α) : List α :=
  if x ∈ acc then acc else acc ++ [x]

/-- `Array.from(new Set(l))`: deduplicate keeping the first occurrence of
each element, in encounter order. -/
def jsSetDedup {α : Type} [DecidableEq α] (l : List α) : List α :=
  l.foldl jsSetAdd []

/-- `Array.from(new Set(values.filter(value => value.length > 0)))`:
the unique non-empty values, in encounter order. -/
def uniqNonEmpty (values : List QStr) : List QStr :=
  jsSetDedup (values.filter (fun value => value.length > 0))

/-- `updateFilterMultipleValues`: deduplicate the candidate values, drop
empty strings, and substitute at the value token's span the empty
string (zero values), the bare value (one value), or the bracketed
comma-separated literal (more than one value). -/
def updateFilterMultipleValues (state : QueryBuilderState)
    (token : FilterToken) (values : List QStr) : QueryBuilderState :=
  let uniqNonEmptyValues := uniqNonEmpty values
  if uniqNonEmptyValues.length = 0 then
    { state with
        query := replaceQueryToken state.query token.value.location [] }
  else
    let newValue :=
      if uniqNonEmptyValues.length > 1 then
        ('[' :: List.intercalate [','] uniqNonEmptyValues) ++ [']']
      else uniqNonEmptyValues.headD []
    { state with
        query := replaceQueryToken state.query token.value.location newValue }

/-- `multiSelectTokenValue`: the `TOGGLE_FILTER_VALUE` mutator.  On a
text-list or number-list value it flips membership of the candidate in
the item texts (`item.value?.text ?? ''`); on any other (scalar) value
it clears the value when the text equals the candidate and otherwise
forms the two-element list `[current, candidate]`. -/
def multiSelectTokenValue (state : QueryBuilderState) (token : FilterToken)
    (value : QStr) : QueryBuilderState :=
  match token.value.kind with
  | ValueKind.textList items
  | ValueKind.numberList items =>
    let values := items.map (fun item => item.getD [])
    let newValues :=
      if value ∈ values then values.filter (fun x => x ≠ value)
      else values ++ [value]
    updateFilterMultipleValues state token newValues
  | ValueKind.scalar =>
    if token.value.text = value then
      updateFilterMultipleValues state token [[]]
    else
      updateFilterMultipleValues state token [token.value.text, value]

/-- `deleteLastMultiSelectTokenValue`: drop the last item of a list value
(`items.slice(0, -1)`), or clear a scalar value. -/
def deleteLastMultiSelectTokenValue (state : QueryBuilderState)
    (token : FilterToken) : QueryBuilderState :=
  match token.value.kind with
  | ValueKind.textList items
  | ValueKind.numberList items =>
    updateFilterMultipleValues state token
      (items.dropLast.map (fun item => item.getD []))
  | ValueKind.scalar =>
    updateFilterMultipleValues state token [[]]

/-- The reducer inside `useQueryBuilderState`: dispatch on the action's
type tag; any unrecognized tag falls through to the `default` arm and
returns the state unchanged. -/
def queryBuilderReducer (state : QueryBuilderState)
    (action : QueryBuilderAction) : QueryBuilderState :=
  match action with
  | QueryBuilderAction.deleteToken token =>
    { query := removeQueryToken state.query token }
  | QueryBuilderAction.updateFreeText token text =>
    updateFreeText state token text
  | QueryBuilderAction.updateFilterOp token op =>
    { query := modifyFilterOperator state.query token op }
  | QueryBuilderAction.updateTokenValue token value =>
    { query := replaceQueryToken state.query token.location value }
  | QueryBuilderAction.toggleFilterValue token value =>
    multiSelectTokenValue state token value
  | QueryBuilderAction.deleteLastMultiSelectFilterValue token =>
    deleteLastMultiSelectTokenValue state token
  | QueryBuilderAction.unrecognized _ => state

/-- The content of a filter token's value, abstracted from offsets: the
ordered item texts of a list value, or the text of a scalar value. -/
inductive ValueContent where
  | list (values : List QStr)
  | scalar (text : QStr)
deriving DecidableEq

/-- The value content carried by a value token: list items read through
`item.value?.text ?? ''`, any non-list value read through its text. -/
def contentOf (token : ValueToken) : ValueContent :=
  match token.kind with
  | ValueKind.textList items =>
    ValueContent.list (items.map (fun item => item.getD []))
  | ValueKind.numberList items =>
    ValueContent.list (items.map (fun item => item.getD []))
  | ValueKind.scalar => ValueContent.scalar token.text

/-- The `newValues` list that `multiSelectTokenValue` hands to
`updateFilterMultipleValues`, at the level of value content. -/
def multiSelectValues (content : ValueContent) (value : QStr) : List QStr :=
  match content with
  | ValueContent.list values =>
    if value ∈ values then values.filter (fun x => x ≠ value)
    else values ++ [value]
  | ValueContent.scalar text =>
    if text = value then [[]] else [text, value]

/-- Following the spec's serialization rule for multi-value lists:
duplicates and empty-string values are removed first; zero remaining
values serialize as the empty string, one as the bare value, more than
one as the bracketed comma-separated literal. -/
def serializeMultiValueList (values : List QStr) : QStr :=
  match uniqNonEmpty values with
  | [] => []
  | [v] => v
  | vs => ('[' :: List.intercalate [','] vs) ++ [']']

/-- Following the spec's toggle rule: a list value flips membership of
the candidate (append if absent, remove every occurrence if present); a
scalar equal to the candidate becomes the empty value; a different
scalar becomes the two-element list `[current, candidate]`. -/
def toggledValues (content : ValueContent) (value : QStr) : List QStr :=
  match content with
  | ValueContent.list values =>
    if value ∈ values then values.filter (fun x => x ≠ value)
    else values ++ [value]
  | ValueContent.scalar text =>
    if text = value then [] else [text, value]

/-- Modelled from the spec: the external parser is a black box, and the
spec's multi-select scenario fixes how a value serialized by the
multi-value rule re-parses — an empty value is an empty scalar, a bare
literal a scalar, a bracketed literal a list with those items. -/
def reparseValue (values : List QStr) : ValueContent :=
  match values with
  | [] => ValueContent.scalar []
  | [v] => ValueContent.scalar v
  | vs => ValueContent.list vs

/-- A value content normalized the way serialization normalizes it:
duplicates and empty strings removed. -/
def contentNorm (content : ValueContent) : List QStr :=
  match content with
  | ValueContent.list values => uniqNonEmpty values
  | ValueContent.scalar text => uniqNonEmpty [text]

/-- Toggling the same candidate twice, re-parsing the serialized value
in between, read at the level of normalized value content. -/
def toggleTwice (content : ValueContent) (value : QStr) : List QStr :=
  uniqNonEmpty (multiSelectValues
    (reparseValue (uniqNonEmpty (multiSelectValues content value))) value)

/-- The filter token of the parsed query `assigned:[me,team]`. -/
def assignedListToken : FilterToken :=
  { location := ⟨0, 18⟩
    key := ("assigned").data
    operator := TermOperator.DEFAULT
    negated := false
    value :=
      { location := ⟨9, 18⟩
        text := ("[me,team]").data
        kind := ValueKind.textList [some (("me").data), some (("team").data)] } }

/-- The filter token of the re-parsed query `assigned:team`. -/
def assignedTeamToken : FilterToken :=
  { location := ⟨0, 13⟩
    key := ("assigned").data
    operator := TermOperator.DEFAULT
    negated := false
    value :=
      { location := ⟨9, 13⟩
        text := ("team").data
        kind := ValueKind.scalar } }

/-! ### Substring lemmas -/

theorem take_min_length {α : Type} (l : List α) (n : Nat) :
    l.take (min n l.length) = l.take n := by
  rcases Nat.le_total n l.length with h | h
  · rw [Nat.min_eq_left h]
  · rw [Nat.min_eq_right h, List.take_length, List.take_of_length_le h]

theorem drop_min_length {α : Type} (l : List α) (n : Nat) :
    l.drop (min n l.length) = l.drop n := by
  rcases Nat.le_total n l.length with h | h
  · rw [Nat.min_eq_left h]
  · rw [Nat.min_eq_right h, List.drop_length, List.drop_eq_nil_of_le h]

theorem jsSubstring_zero (q : QStr) (b : Nat) :
    jsSubstring q 0 b = q.take b := by
  unfold jsSubstring
  simp [Nat.zero_min, take_min_length]

theorem jsSubstringFrom_eq (q : QStr) (a : Nat) :
    jsSubstringFrom q a = q.drop a := by
  unfold jsSubstringFrom jsSubstring
  have h1 : min a q.length ≤ q.length := Nat.min_le_right _ _
  rw [Nat.min_self, Nat.max_eq_right h1, Nat.min_eq_left h1,
    List.take_length, drop_min_length]

/-! ### Dedup lemmas -/

section Dedup

variable {α : Type} [DecidableEq α]

theorem jsSetAdd_of_mem {acc : List α} {x : α} (h : x ∈ acc) :
    jsSetAdd acc x = acc := by
  unfold jsSetAdd; rw [if_pos h]

theorem jsSetAdd_of_not_mem {acc : List α} {x : α} (h : x ∉ acc) :
    jsSetAdd acc x = acc ++ [x] := by
  unfold jsSetAdd; rw [if_neg h]

theorem mem_foldl_jsSetAdd (l : List α) :
    ∀ (acc : List α) (a : α),
      a ∈ List.foldl jsSetAdd acc l ↔ a ∈ acc ∨ a ∈ l := by
  induction l with
  | nil => intro acc a; simp
  | cons x rest ih =>
    intro acc a
    rw [List.foldl_cons, ih]
    by_cases hx : x ∈ acc
    · rw [jsSetAdd_of_mem hx]
      constructor
      · intro h; tauto
      · rintro (h | h)
        · exact Or.inl h
        · rcases List.mem_cons.mp h with h | h
          · exact Or.inl (h ▸ hx)
          · exact Or.inr h
    · rw [jsSetAdd_of_not_mem hx]
      simp
      tauto

theorem mem_jsSetDedup {l : List α} {a : α} :
    a ∈ jsSetDedup l ↔ a ∈ l := by
  unfold jsSetDedup
  rw [mem_foldl_jsSetAdd]
  simp

theorem nodup_foldl_jsSetAdd (l : List α) :
    ∀ acc : List α, acc.Nodup → (List.foldl jsSetAdd acc l).Nodup := by
  induction l with
  | nil => intro acc h; simpa using h
  | cons x rest ih =>
    intro acc h
    rw [List.foldl_cons]
    apply ih
    by_cases hx : x ∈ acc
    · rw [jsSetAdd_of_mem hx]; exact h
    · rw [jsSetAdd_of_not_mem hx]
      simp [List.nodup_append, h, hx]

theorem nodup_jsSetDedup (l : List α) : (jsSetDedup l).Nodup :=
  nodup_foldl_jsSetAdd l [] List.nodup_nil

theorem sublist_foldl_jsSetAdd (l : List α) :
    ∀ acc : List α, (List.foldl jsSetAdd acc l).Sublist (acc ++ l) := by
  induction l with
  | nil => intro acc; simp
  | cons x rest ih =>
    intro acc
    rw [List.foldl_cons]
    by_cases hx : x ∈ acc
    · rw [jsSetAdd_of_mem hx]
      exact (ih acc).trans
        (List.Sublist.append_left (List.sublist_cons_self x rest) acc)
    · rw [jsSetAdd_of_not_mem hx]
      have := ih (acc ++ [x])
      simpa using this

theorem jsSetDedup_sublist (l : List α) : (jsSetDedup l).Sublist l := by
  have := sublist_foldl_jsSetAdd l []
  simpa [jsSetDedup] using this

theorem foldl_jsSetAdd_eq_append (l : List α) :
    ∀ acc : List α, (acc ++ l).Nodup → List.foldl jsSetAdd acc l = acc ++ l := by
  induction l with
  | nil => intro acc _; simp
  | cons x rest ih =>
    intro acc h
    have hx : x ∉ acc := by
      intro hmem
      rw [List.nodup_append] at h
      exact h.2.2 hmem (List.mem_cons_self x rest)
    rw [List.foldl_cons, jsSetAdd_of_not_mem hx]
    have h' : ((acc ++ [x]) ++ rest).Nodup := by
      simpa [List.append_assoc] using h
    rw [ih (acc ++ [x]) h']
    simp

theorem jsSetDedup_eq_self {l : List α} (h : l.Nodup) : jsSetDedup l = l := by
  have := foldl_jsSetAdd_eq_append l [] (by simpa using h)
  simpa [jsSetDedup] using this

theorem jsSetAdd_filter (acc : List α) (x : α) (q : α → Bool) :
    (jsSetAdd acc x).filter q =
      if q x then jsSetAdd (acc.filter q) x else acc.filter q := by
  by_cases hx : x ∈ acc
  · rw [jsSetAdd_of_mem hx]
    by_cases hq : q x
    · rw [if_pos hq, jsSetAdd_of_mem (List.mem_filter.mpr ⟨hx, hq⟩)]
    · rw [if_neg hq]
  · rw [jsSetAdd_of_not_mem hx, List.filter_append]
    by_cases hq : q x
    · have hxf : x ∉ acc.filter q := fun hc => hx (List.mem_filter.mp hc).1
      rw [if_pos hq, jsSetAdd_of_not_mem hxf]
      simp [hq]
    · rw [if_neg hq]
      simp [hq]

theorem filter_foldl_jsSetAdd (l : List α) (q : α → Bool) :
    ∀ acc : List α,
      (List.foldl jsSetAdd acc l).filter q =
        List.foldl jsSetAdd (acc.filter q) (l.filter q) := by
  induction l with
  | nil => intro acc; simp
  | cons x rest ih =>
    intro acc
    rw [List.foldl_cons, ih, jsSetAdd_filter]
    by_cases hq : q x
    · rw [if_pos hq, List.filter_cons_of_pos hq, List.foldl_cons]
    · rw [if_neg hq, List.filter_cons_of_neg hq]

theorem jsSetDedup_filter (l : List α) (q : α → Bool) :
    (jsSetDedup l).filter q = jsSetDedup (l.filter q) := by
  have := filter_foldl_jsSetAdd l q []
  simpa [jsSetDedup] using this

theorem jsSetDedup_append_singleton (l : List α) (v : α) :
    jsSetDedup (l ++ [v]) = jsSetAdd (jsSetDedup l) v := by
  unfold jsSetDedup
  rw [List.foldl_append]
  rfl

theorem foldl_jsSetAdd_append_acc (l : List α) (acc1 : List α) :
    ∀ acc2 : List α,
      List.foldl jsSetAdd (acc1 ++ acc2) l =
        acc1 ++ List.foldl jsSetAdd acc2 (l.filter (fun y => y ∉ acc1)) := by
  induction l with
  | nil => intro acc2; simp
  | cons x rest ih =>
    intro acc2
    rw [List.foldl_cons]
    by_cases h1 : x ∈ acc1
    · rw [jsSetAdd_of_mem (List.mem_append.mpr (Or.inl h1)),
        List.filter_cons_of_neg (by simpa using h1), ih]
    · by_cases h2 : x ∈ acc2
      · rw [jsSetAdd_of_mem (List.mem_append.mpr (Or.inr h2)),
          List.filter_cons_of_pos (by simpa using h1), List.foldl_cons,
          jsSetAdd_of_mem h2, ih]
      · have hadd : jsSetAdd (acc1 ++ acc2) x = acc1 ++ (acc2 ++ [x]) := by
          rw [jsSetAdd_of_not_mem (by simp [h1, h2]), List.append_assoc]
        rw [hadd, List.filter_cons_of_pos (by simpa using h1), List.foldl_cons,
          jsSetAdd_of_not_mem h2, ih]

theorem jsSetDedup_cons (x : α) (l : List α) :
    jsSetDedup (x :: l) = x :: jsSetDedup (l.filter (fun y => y ≠ x)) := by
  have h : jsSetDedup (x :: l) = List.foldl jsSetAdd ([x] ++ []) l := by
    unfold jsSetDedup
    rw [List.foldl_cons]
    rfl
  rw [h, foldl_jsSetAdd_append_acc]
  have hfilter : l.filter (fun y => y ∉ [x]) = l.filter (fun y => y ≠ x) := by
    apply List.filter_congr
    intro a _
    simp
  rw [hfilter]
  rfl

end Dedup

/-! ### uniqNonEmpty lemmas -/

theorem filter_pos_of_ne {l : List QStr} (h : ∀ a ∈ l, a ≠ []) :
    l.filter (fun value => value.length > 0) = l := by
  apply List.filter_eq_self.mpr
  intro a ha
  simpa [List.length_pos] using h a ha

theorem mem_uniqNonEmpty {l : List QStr} {a : QStr} :
    a ∈ uniqNonEmpty l ↔ a ∈ l ∧ a ≠ [] := by
  unfold uniqNonEmpty
  rw [mem_jsSetDedup, List.mem_filter]
  simp [List.length_pos]

theorem nodup_uniqNonEmpty (l : List QStr) : (uniqNonEmpty l).Nodup :=
  nodup_jsSetDedup _

theorem ne_nil_of_mem_uniqNonEmpty {l : List QStr} :
    ∀ a ∈ uniqNonEmpty l, a ≠ [] :=
  fun _ ha => (mem_uniqNonEmpty.mp ha).2

theorem uniqNonEmpty_eq_self {l : List QStr} (h1 : l.Nodup)
    (h2 : ∀ a ∈ l, a ≠ []) : uniqNonEmpty l = l := by
  unfold uniqNonEmpty
  rw [filter_pos_of_ne h2, jsSetDedup_eq_self h1]

theorem uniqNonEmpty_idem (l : List QStr) :
    uniqNonEmpty (uniqNonEmpty l) = uniqNonEmpty l :=
  uniqNonEmpty_eq_self (nodup_uniqNonEmpty l) ne_nil_of_mem_uniqNonEmpty

theorem uniqNonEmpty_filter_ne (l : List QStr) (v : QStr) :
    uniqNonEmpty (l.filter (fun x => x ≠ v)) =
      (uniqNonEmpty l).filter (fun x => x ≠ v) := by
  unfold uniqNonEmpty
  rw [jsSetDedup_filter, List.filter_filter, List.filter_filter]
  congr 1
  apply List.filter_congr
  intro a _
  exact Bool.and_comm _ _

theorem uniqNonEmpty_append_nil (l : List QStr) :
    uniqNonEmpty (l ++ [[]]) = uniqNonEmpty l := by
  unfold uniqNonEmpty
  rw [List.filter_append]
  simp

theorem uniqNonEmpty_append_ne {l : List QStr} {v : QStr} (hv : v ≠ [])
    (hl : v ∉ l) : uniqNonEmpty (l ++ [v]) = uniqNonEmpty l ++ [v] := by
  unfold uniqNonEmpty
  rw [List.filter_append]
  have h1 : ([v] : List QStr).filter (fun value => value.length > 0) = [v] := by
    simp [List.length_pos, hv]
  rw [h1, jsSetDedup_append_singleton, jsSetAdd_of_not_mem]
  intro hc
  exact hl (List.mem_filter.mp (mem_jsSetDedup.mp hc)).1

theorem uniqNonEmpty_single {t : QStr} (ht : t ≠ []) :
    uniqNonEmpty [t] = [t] :=
  uniqNonEmpty_eq_self (List.nodup_singleton t) (by simpa using ht)

theorem uniqNonEmpty_pair {t v : QStr} (ht : t ≠ []) (hv : v ≠ [])
    (hne : t ≠ v) : uniqNonEmpty [t, v] = [t, v] :=
  uniqNonEmpty_eq_self (by simp [hne])
    (by intro a ha; rcases List.mem_cons.mp ha with h | h
        · exact h ▸ ht
        · simp at h; exact h ▸ hv)

theorem uniqNonEmpty_pair_nil_left {v : QStr} (hv : v ≠ []) :
    uniqNonEmpty [[], v] = [v] := by
  have : ([[], v] : List QStr) = [] ++ [([] : QStr)] ++ [v] := by simp
  unfold uniqNonEmpty
  simp [List.length_pos, hv, jsSetDedup]
  rw [jsSetAdd_of_not_mem (by simp)]
  rfl

theorem uniqNonEmpty_pair_nil_right {t : QStr} (ht : t ≠ []) :
    uniqNonEmpty [t, []] = [t] := by
  unfold uniqNonEmpty
  simp [List.length_pos, ht, jsSetDedup]
  rw [jsSetAdd_of_not_mem (by simp)]
  rfl

theorem filter_ne_append_perm {α : Type} [DecidableEq α] {M : List α} {v : α}
    (hn : M.Nodup) (hv : v ∈ M) :
    List.Perm (M.filter (fun x => x ≠ v) ++ [v]) M := by
  have hpred : M.filter (fun x => x != v) = M.filter (fun x => x ≠ v) := by
    apply List.filter_congr
    intro a _
    by_cases h : a = v <;> simp [h]
  have h1 : M.erase v = M.filter (fun x => x ≠ v) := by
    rw [hn.erase_eq_filter v, hpred]
  have h2 : List.Perm M (v :: M.erase v) := List.perm_cons_erase hv
  have h3 : List.Perm (M.filter (fun x => x ≠ v) ++ [v])
      (v :: M.filter (fun x => x ≠ v)) := List.perm_append_singleton v _
  rw [h1] at h2
  exact h3.trans h2.symm

theorem eq_singleton_of_filter_ne_nil {α : Type} [DecidableEq α] {M : List α}
    {v : α} (hn : M.Nodup) (hv : v ∈ M)
    (h : M.filter (fun x => x ≠ v) = []) : M = [v] := by
  have hall : ∀ a ∈ M, a = v := by
    intro a ha
    by_contra hne
    have hmem : a ∈ M.filter (fun x => x ≠ v) :=
      List.mem_filter.mpr ⟨ha, by simpa using hne⟩
    rw [h] at hmem
    exact (List.not_mem_nil a) hmem
  rcases M with _ | ⟨a, t⟩
  · cases hv
  · have ha : a = v := hall a (List.mem_cons_self a t)
    subst ha
    rcases t with _ | ⟨b, t'⟩
    · rfl
    · exfalso
      have hb : b = a := hall b (by simp)
      rw [List.nodup_cons] at hn
      exact hn.1 (by simp [hb])

/-! ### Bridging lemmas between the mutators and the serialization rule -/

theorem updateFilterMultipleValues_eq (state : QueryBuilderState)
    (token : FilterToken) (values : List QStr) :
    updateFilterMultipleValues state token values =
      { query := replaceQueryToken state.query token.value.location
          (serializeMultiValueList values) } := by
  unfold updateFilterMultipleValues serializeMultiValueList
  rcases h : uniqNonEmpty values with _ | ⟨a, _ | ⟨b, rest⟩⟩
  · simp [h]
  · simp [h]
  · simp [h, List.intercalate]

theorem multiSelectTokenValue_eq (state : QueryBuilderState)
    (token : FilterToken) (v : QStr) :
    multiSelectTokenValue state token v =
      updateFilterMultipleValues state token
        (multiSelectValues (contentOf token.value) v) := by
  rcases h : token.value.kind with items | items | _
  · simp [multiSelectTokenValue, multiSelectValues, contentOf, h]
  · simp [multiSelectTokenValue, multiSelectValues, contentOf, h]
  · by_cases hs : token.value.text = v <;>
      simp [multiSelectTokenValue, multiSelectValues, contentOf, h, hs]

theorem deleteLastMultiSelectTokenValue_shape (state : QueryBuilderState)
    (token : FilterToken) :
    ∃ values, deleteLastMultiSelectTokenValue state token =
      updateFilterMultipleValues state token values := by
  rcases h : token.value.kind with items | items | _
  · exact ⟨items.dropLast.map (fun item => item.getD []),
      by simp [deleteLastMultiSelectTokenValue, h]⟩
  · exact ⟨items.dropLast.map (fun item => item.getD []),
      by simp [deleteLastMultiSelectTokenValue, h]⟩
  · exact ⟨[[]], by simp [deleteLastMultiSelectTokenValue, h]⟩

theorem second_toggle_nil_eq {M : List QStr} (hn : M.Nodup)
    (hne : ∀ a ∈ M, a ≠ []) :
    uniqNonEmpty (multiSelectValues (reparseValue M) []) = M := by
  rcases M with _ | ⟨u, _ | ⟨w, rest⟩⟩
  · rfl
  · have hu : u ≠ [] := hne u (by simp)
    have h1 : multiSelectValues (reparseValue [u]) [] = [u, []] := by
      simp [reparseValue, multiSelectValues, hu]
    rw [h1, uniqNonEmpty_pair_nil_right hu]
  · have hnil : ([] : QStr) ∉ (u :: w :: rest) := fun hc => (hne [] hc) rfl
    have h1 : multiSelectValues (reparseValue (u :: w :: rest)) [] =
        (u :: w :: rest) ++ [[]] := by
      simp [reparseValue, multiSelectValues, hnil]
    rw [h1, uniqNonEmpty_append_nil, uniqNonEmpty_eq_self hn hne]

/-- C9 (amended): toggling the same candidate value twice, re-parsing the
serialized value in between, restores the original value content up to
order (a permutation of the normalized original content); exact order is
lost when the first toggle removed the value, because the second toggle
re-appends it at the end. -/
theorem toggle_twice_restores_content_perm (c : ValueContent) (v : QStr) :
    List.Perm (toggleTwice c v) (contentNorm c) := by
  rcases c with values | t
  · simp only [toggleTwice, contentNorm]
    by_cases hmem : v ∈ values
    · have h1 : multiSelectValues (ValueContent.list values) v =
          values.filter (fun x => x ≠ v) := by simp [multiSelectValues, hmem]
      rw [h1, uniqNonEmpty_filter_ne]
      by_cases hv : v = []
      · subst hv
        have hDfilter :
            (uniqNonEmpty values).filter (fun x => x ≠ ([] : QStr)) =
              uniqNonEmpty values :=
          List.filter_eq_self.mpr (fun a ha => by
            simpa using ne_nil_of_mem_uniqNonEmpty a ha)
        rw [hDfilter, second_toggle_nil_eq (nodup_uniqNonEmpty values)
          ne_nil_of_mem_uniqNonEmpty]
      · have hvD : v ∈ uniqNonEmpty values := mem_uniqNonEmpty.mpr ⟨hmem, hv⟩
        have hnD : (uniqNonEmpty values).Nodup := nodup_uniqNonEmpty values
        rcases hN : (uniqNonEmpty values).filter (fun x => x ≠ v) with
          _ | ⟨u, _ | ⟨w, rest⟩⟩
        · have hDv : uniqNonEmpty values = [v] :=
            eq_singleton_of_filter_ne_nil hnD hvD hN
          have h2 : multiSelectValues (reparseValue []) v = [[], v] := by
            simp [reparseValue, multiSelectValues, Ne.symm hv]
          rw [h2, uniqNonEmpty_pair_nil_left hv, hDv]
        · have humem : u ∈ (uniqNonEmpty values).filter (fun x => x ≠ v) := by
            rw [hN]; simp
          have huD : u ∈ uniqNonEmpty values := (List.mem_filter.mp humem).1
          have huv : u ≠ v := by
            have := (List.mem_filter.mp humem).2
            simpa using this
          have hu_ne : u ≠ [] := ne_nil_of_mem_uniqNonEmpty u huD
          have h2 : multiSelectValues (reparseValue [u]) v = [u, v] := by
            simp [reparseValue, multiSelectValues, huv]
          rw [h2, uniqNonEmpty_pair hu_ne hv huv]
          have hperm := filter_ne_append_perm hnD hvD
          rw [hN] at hperm
          simpa using hperm
        · have hNsub : ∀ a ∈ (u :: w :: rest), a ∈ uniqNonEmpty values := by
            intro a ha
            rw [← hN] at ha
            exact (List.mem_filter.mp ha).1
          have hN_nodup : (u :: w :: rest).Nodup := by
            rw [← hN]
            exact hnD.filter _
          have hN_ne : ∀ a ∈ (u :: w :: rest), a ≠ [] :=
            fun a ha => ne_nil_of_mem_uniqNonEmpty a (hNsub a ha)
          have hvN : v ∉ (u :: w :: rest) := by
            rw [← hN]
            intro hc
            have := (List.mem_filter.mp hc).2
            simp at this
          have h2 : multiSelectValues (reparseValue (u :: w :: rest)) v =
              (u :: w :: rest) ++ [v] := by
            simp [reparseValue, multiSelectValues, hvN]
          rw [h2, uniqNonEmpty_append_ne hv hvN,
            uniqNonEmpty_eq_self hN_nodup hN_ne]
          have hperm := filter_ne_append_perm hnD hvD
          rw [hN] at hperm
          exact hperm
    · have h1 : multiSelectValues (ValueContent.list values) v =
          values ++ [v] := by simp [multiSelectValues, hmem]
      rw [h1]
      by_cases hv : v = []
      · subst hv
        rw [uniqNonEmpty_append_nil, second_toggle_nil_eq
          (nodup_uniqNonEmpty values) ne_nil_of_mem_uniqNonEmpty]
      · rw [uniqNonEmpty_append_ne hv hmem]
        rcases hD2 : uniqNonEmpty values with _ | ⟨d, _ | ⟨d2, D2⟩⟩
        · have h2 : multiSelectValues (reparseValue (([] : List QStr) ++ [v]))
              v = [[]] := by
            simp [reparseValue, multiSelectValues]
          rw [h2]
          exact List.Perm.refl []
        · have hd : d ≠ [] := by
            apply ne_nil_of_mem_uniqNonEmpty d
            rw [hD2]
            simp
          have hdvals : d ∈ values := by
            have : d ∈ uniqNonEmpty values := by rw [hD2]; simp
            exact (mem_uniqNonEmpty.mp this).1
          have hdv : d ≠ v := fun h => hmem (h ▸ hdvals)
          have h2 : multiSelectValues (reparseValue ([d] ++ [v])) v = [d] := by
            simp [reparseValue, multiSelectValues, hdv]
          rw [h2, uniqNonEmpty_single hd]
        · have hvD : v ∉ (d :: d2 :: D2) := by
            rw [← hD2]
            exact fun hc => hmem (mem_uniqNonEmpty.mp hc).1
          have hDnodup : (d :: d2 :: D2).Nodup := by
            rw [← hD2]; exact nodup_uniqNonEmpty values
          have hDne : ∀ a ∈ (d :: d2 :: D2), a ≠ [] := by
            rw [← hD2]; exact ne_nil_of_mem_uniqNonEmpty
          have hvIn : v ∈ (d :: d2 :: D2) ++ [v] := by simp
          have h2 : multiSelectValues (reparseValue ((d :: d2 :: D2) ++ [v]))
              v = ((d :: d2 :: D2) ++ [v]).filter (fun x => x ≠ v) := by
            simp only [List.cons_append]
            simp [reparseValue, multiSelectValues]
          have h3 : ((d :: d2 :: D2) ++ [v]).filter (fun x => x ≠ v) =
              (d :: d2 :: D2) := by
            rw [List.filter_append]
            have hself : (d :: d2 :: D2).filter (fun x => x ≠ v) =
                (d :: d2 :: D2) :=
              List.filter_eq_self.mpr (fun a ha => by
                simp
                exact fun h => hvD (h ▸ ha))
            rw [hself]
            simp
          rw [h2, h3, uniqNonEmpty_eq_self hDnodup hDne]
  · simp only [toggleTwice, contentNorm]
    by_cases htv : t = v
    · subst htv
      have h1 : multiSelectValues (ValueContent.scalar t) t = [[]] := by
        simp [multiSelectValues]
      rw [h1]
      have huniq : uniqNonEmpty [[]] = [] := rfl
      rw [huniq]
      by_cases hv : t = []
      · subst hv
        have h2 : multiSelectValues (reparseValue []) ([] : QStr) = [[]] := by
          simp [reparseValue, multiSelectValues]
        rw [h2]
      · have h2 : multiSelectValues (reparseValue []) t = [[], t] := by
          simp [reparseValue, multiSelectValues, Ne.symm hv]
        rw [h2, uniqNonEmpty_pair_nil_left hv, uniqNonEmpty_single hv]
    · have h1 : multiSelectValues (ValueContent.scalar t) v = [t, v] := by
        simp [multiSelectValues, htv]
      rw [h1]
      by_cases ht : t = []
      · subst ht
        by_cases hv : v = []
        · exact absurd hv.symm htv
        · rw [uniqNonEmpty_pair_nil_left hv]
          have h2 : multiSelectValues (reparseValue [v]) v = [[]] := by
            simp [reparseValue, multiSelectValues]
          rw [h2]
      · by_cases hv : v = []
        · subst hv
          rw [uniqNonEmpty_pair_nil_right ht]
          have h2 : multiSelectValues (reparseValue [t]) ([] : QStr) =
              [t, []] := by
            simp [reparseValue, multiSelectValues, ht]
          rw [h2, uniqNonEmpty_pair_nil_right ht, uniqNonEmpty_single ht]
        · rw [uniqNonEmpty_pair ht hv htv]
          have h2 : multiSelectValues (reparseValue [t, v]) v = [t] := by
            simp [reparseValue, multiSelectValues, htv]
          rw [h2, uniqNonEmpty_single ht]

/-- Claim C1: a `TOGGLE_FILTER_VALUE` dispatch substitutes, at the value
token's span, the serialization (per the multi-value list rule) of the
toggled content: a list value flips membership of the candidate (append
if absent, remove every occurrence if present), a scalar equal to the
candidate becomes the empty value, a different scalar becomes the list
`[current, candidate]`.  In particular, toggling `me` on
`assigned:[me,team]` yields `assigned:team`, and a further toggle of
`team` on the re-parsed result yields `assigned:`. -/
theorem toggle_filter_value_spec :
    (∀ (state : QueryBuilderState) (token : FilterToken) (v : QStr),
      queryBuilderReducer state
          (QueryBuilderAction.toggleFilterValue token v) =
        { query := replaceQueryToken state.query token.value.location
            (serializeMultiValueList
              (toggledValues (contentOf token.value) v)) })
    ∧ queryBuilderReducer ⟨("assigned:[me,team]").data⟩
        (QueryBuilderAction.toggleFilterValue assignedListToken
          (("me").data)) =
      ⟨("assigned:team").data⟩
    ∧ queryBuilderReducer ⟨("assigned:team").data⟩
        (QueryBuilderAction.toggleFilterValue assignedTeamToken
          (("team").data)) =
      ⟨("assigned:").data⟩ := by
  refine ⟨?_, by decide, by decide⟩
  intro state token v
  have hser : serializeMultiValueList
      (multiSelectValues (contentOf token.value) v) =
      serializeMultiValueList (toggledValues (contentOf token.value) v) := by
    rcases contentOf token.value with vals | t
    · rfl
    · by_cases h : t = v
      · simp only [multiSelectValues, toggledValues, if_pos h]
        rfl
      · simp only [multiSelectValues, toggledValues, if_neg h]
  show multiSelectTokenValue state token v = _
  rw [multiSelectTokenValue_eq, updateFilterMultipleValues_eq, hser]

/-- Claim C2: the multi-value update removes duplicate and empty-string
candidate values first and substitutes, at the value token's span, the
empty string when zero values remain, the bare value when one remains,
and the single bracketed comma-separated literal when more remain; e.g.
serializing `["a","","a","b"]` yields `"[a,b]"`. -/
theorem update_filter_multiple_values_spec :
    (∀ (state : QueryBuilderState) (token : FilterToken)
        (values : List QStr),
      updateFilterMultipleValues state token values =
        { query := replaceQueryToken state.query token.value.location
            (serializeMultiValueList values) })
    ∧ serializeMultiValueList
        [("a").data, [], ("a").data, ("b").data] = ("[a,b]").data :=
  ⟨updateFilterMultipleValues_eq, by decide⟩

/-- Claim C3: `DELETE_TOKEN` on a token with span `[s,e)` inside the
query returns exactly `Q[0:s] ++ Q[e:]`, with no padding added. -/
theorem delete_token_exact (state : QueryBuilderState) (token : AnyToken)
    (_h1 : token.location.startOffset ≤ token.location.endOffset)
    (_h2 : token.location.endOffset ≤ state.query.length) :
    queryBuilderReducer state (QueryBuilderAction.deleteToken token) =
      { query := state.query.take token.location.startOffset ++
          state.query.drop token.location.endOffset } := by
  show ({ query := removeQueryToken state.query token } : QueryBuilderState) = _
  unfold removeQueryToken
  rw [jsSubstring_zero, jsSubstringFrom_eq]

/-- Witness for `delete_token_exact` at query `"ab cd"` and span
`[2,3)`. -/
theorem delete_token_exact_witness :
    (2 ≤ 3 ∧ 3 ≤ (("ab cd").data).length)
    ∧ queryBuilderReducer ⟨("ab cd").data⟩
        (QueryBuilderAction.deleteToken ⟨⟨2, 3⟩⟩) =
      { query := (("ab cd").data).take 2 ++ (("ab cd").data).drop 3 } :=
  ⟨⟨by decide, by decide⟩,
    delete_token_exact ⟨("ab cd").data⟩ ⟨⟨2, 3⟩⟩ (by decide) (by decide)⟩

/-- Claim C4: `UPDATE_FREE_TEXT` on a token with span `[s,e)` inside the
query equals
`trim(trimEnd(Q[0:s]) ++ " " ++ trim(r) ++ " " ++ trimStart(Q[e:]))`,
reading the claim's `r'` as the trimmed replacement (`value.trim()` in
the source). -/
theorem update_free_text_formula (state : QueryBuilderState)
    (token : AnyToken) (text : QStr)
    (_h1 : token.location.startOffset ≤ token.location.endOffset)
    (_h2 : token.location.endOffset ≤ state.query.length) :
    queryBuilderReducer state
        (QueryBuilderAction.updateFreeText token text) =
      { query := jsTrim
          (jsTrimEnd (state.query.take token.location.startOffset) ++
            [' '] ++ jsTrim text ++ [' '] ++
            jsTrimStart (state.query.drop token.location.endOffset)) } := by
  show updateFreeText state token text = _
  unfold updateFreeText replaceTokenWithPadding
  rw [jsSubstring_zero, jsSubstringFrom_eq]

/-- Witness for `update_free_text_formula` at query `"a   b"`, span
`[1,4)` and replacement `"x"`. -/
theorem update_free_text_formula_witness :
    (1 ≤ 4 ∧ 4 ≤ (("a   b").data).length)
    ∧ queryBuilderReducer ⟨("a   b").data⟩
        (QueryBuilderAction.updateFreeText ⟨⟨1, 4⟩⟩ (("x").data)) =
      { query := jsTrim
          (jsTrimEnd ((("a   b").data).take 1) ++ [' '] ++
            jsTrim (("x").data) ++ [' '] ++
            jsTrimStart ((("a   b").data).drop 4)) } :=
  ⟨⟨by decide, by decide⟩,
    update_free_text_formula ⟨("a   b").data⟩ ⟨⟨1, 4⟩⟩ (("x").data)
      (by decide) (by decide)⟩

/-- Claim C5 (code bug): the padded free-text replace joins the trimmed
prefix and trimmed suffix with one space separator on each side of the
trimmed replacement, so a replacement that trims to empty leaves two
consecutive spaces at the join: replacing the span `[1,4)` of `"a   b"`
with `"  "` yields `"a  b"` (the spec says `"a b"`), and deleting the
free-text span `[13,15)` of `"is:unresolved  assigned:me"` leaves the
double space in place (the spec says it collapses). -/
theorem padded_replace_double_space :
    queryBuilderReducer ⟨("a   b").data⟩
        (QueryBuilderAction.updateFreeText ⟨⟨1, 4⟩⟩ (("  ").data)) =
      ⟨("a  b").data⟩
    ∧ queryBuilderReducer ⟨("is:unresolved  assigned:me").data⟩
        (QueryBuilderAction.updateFreeText ⟨⟨13, 15⟩⟩ []) =
      ⟨("is:unresolved  assigned:me").data⟩
    ∧ ("a  b").data ≠ ("a b").data :=
  ⟨by decide, by decide, by decide⟩

/-- Claim C6: `UPDATE_FILTER_OP` sets the token's operator to the default
operator and its negated flag to true when the target is not-equal, and
to the target operator with negated false otherwise, then substitutes
the re-serialized token exactly at the token's original span, leaving
the filter's key and value unchanged.  The external stringifier is
modelled from the spec. -/
theorem update_filter_op_spec (state : QueryBuilderState)
    (token : FilterToken) (op : TermOperator) :
    queryBuilderReducer state (QueryBuilderAction.updateFilterOp token op) =
      { query := state.query.take token.location.startOffset ++
          stringifyToken (modifiedFilterToken token op) ++
          state.query.drop token.location.endOffset }
    ∧ (modifiedFilterToken token op).key = token.key
    ∧ (modifiedFilterToken token op).value = token.value
    ∧ (modifiedFilterToken token op).operator =
        (if op = TermOperator.NOT_EQUAL then TermOperator.DEFAULT else op)
    ∧ (modifiedFilterToken token op).negated =
        decide (op = TermOperator.NOT_EQUAL) := by
  refine ⟨?_, rfl, rfl, rfl, rfl⟩
  show ({ query := modifyFilterOperator state.query token op } : QueryBuilderState) = _
  unfold modifyFilterOperator
  rw [jsSubstring_zero, jsSubstringFrom_eq]

/-- Claim C7: `DELETE_TOKEN`, `UPDATE_FILTER_OP`, `UPDATE_TOKEN_VALUE`
and the two multi-value updates reproduce the text outside the edited
token's span verbatim: the result is `Q[0:s] ++ mid ++ Q[e:]` for some
`mid`, where `[s,e)` is the acted-on token's span (the value token's
span for multi-value updates). -/
theorem single_token_edits_frame (state : QueryBuilderState) :
    (∀ token : AnyToken, ∃ mid,
      (queryBuilderReducer state
          (QueryBuilderAction.deleteToken token)).query =
        state.query.take token.location.startOffset ++ mid ++
          state.query.drop token.location.endOffset)
    ∧ (∀ (token : FilterToken) (op : TermOperator), ∃ mid,
      (queryBuilderReducer state
          (QueryBuilderAction.updateFilterOp token op)).query =
        state.query.take token.location.startOffset ++ mid ++
          state.query.drop token.location.endOffset)
    ∧ (∀ (token : AnyToken) (value : QStr), ∃ mid,
      (queryBuilderReducer state
          (QueryBuilderAction.updateTokenValue token value)).query =
        state.query.take token.location.startOffset ++ mid ++
          state.query.drop token.location.endOffset)
    ∧ (∀ (token : FilterToken) (v : QStr), ∃ mid,
      (queryBuilderReducer state
          (QueryBuilderAction.toggleFilterValue token v)).query =
        state.query.take token.value.location.startOffset ++ mid ++
          state.query.drop token.value.location.endOffset)
    ∧ (∀ token : FilterToken, ∃ mid,
      (queryBuilderReducer state
          (QueryBuilderAction.deleteLastMultiSelectFilterValue token)).query =
        state.query.take token.value.location.startOffset ++ mid ++
          state.query.drop token.value.location.endOffset) := by
  refine ⟨?_, ?_, ?_, ?_, ?_⟩
  · intro token
    refine ⟨[], ?_⟩
    show removeQueryToken state.query token = _
    unfold removeQueryToken
    rw [jsSubstring_zero, jsSubstringFrom_eq]
    simp
  · intro token op
    refine ⟨stringifyToken (modifiedFilterToken token op), ?_⟩
    show modifyFilterOperator state.query token op = _
    unfold modifyFilterOperator
    rw [jsSubstring_zero, jsSubstringFrom_eq]
  · intro token value
    refine ⟨value, ?_⟩
    show replaceQueryToken state.query token.location value = _
    unfold replaceQueryToken
    rw [jsSubstring_zero, jsSubstringFrom_eq]
  · intro token v
    refine ⟨serializeMultiValueList
      (multiSelectValues (contentOf token.value) v), ?_⟩
    show (multiSelectTokenValue state token v).query = _
    rw [multiSelectTokenValue_eq, updateFilterMultipleValues_eq]
    show replaceQueryToken state.query token.value.location _ = _
    unfold replaceQueryToken
    rw [jsSubstring_zero, jsSubstringFrom_eq]
  · intro token
    obtain ⟨values, hval⟩ := deleteLastMultiSelectTokenValue_shape state token
    refine ⟨serializeMultiValueList values, ?_⟩
    show (deleteLastMultiSelectTokenValue state token).query = _
    rw [hval, updateFilterMultipleValues_eq]
    show replaceQueryToken state.query token.value.location _ = _
    unfold replaceQueryToken
    rw [jsSubstring_zero, jsSubstringFrom_eq]

/-- Claim C8: an action whose type tag is not one of the six recognized
intents falls through to the reducer's default arm and leaves the state
unchanged (the reducer is total, so no error is signalled). -/
theorem unrecognized_action_noop (state : QueryBuilderState) (tag : QStr)
    (_h : tag ∉ [("DELETE_TOKEN").data, ("UPDATE_FREE_TEXT").data,
      ("UPDATE_FILTER_OP").data, ("UPDATE_TOKEN_VALUE").data,
      ("TOGGLE_FILTER_VALUE").data,
      ("DELETE_LAST_MULTI_SELECT_FILTER_VALUE").data]) :
    queryBuilderReducer state (QueryBuilderAction.unrecognized tag) = state :=
  rfl

/-- Witness for `unrecognized_action_noop` with the tag
`SOME_FUTURE_ACTION`. -/
theorem unrecognized_action_noop_witness :
    ("SOME_FUTURE_ACTION").data ∉ [("DELETE_TOKEN").data,
      ("UPDATE_FREE_TEXT").data, ("UPDATE_FILTER_OP").data,
      ("UPDATE_TOKEN_VALUE").data, ("TOGGLE_FILTER_VALUE").data,
      ("DELETE_LAST_MULTI_SELECT_FILTER_VALUE").data]
    ∧ queryBuilderReducer ⟨("is:unresolved").data⟩
        (QueryBuilderAction.unrecognized (("SOME_FUTURE_ACTION").data)) =
      ⟨("is:unresolved").data⟩ :=
  ⟨by decide, unrecognized_action_noop ⟨("is:unresolved").data⟩
    (("SOME_FUTURE_ACTION").data) (by decide)⟩

/-- Claim C9 counterexample: toggling `me` on `assigned:[me,team]` and
then toggling `me` again on the re-parsed result `assigned:team` yields
`assigned:[team,me]` — the surviving values come back in a different
order, so the original content `[me,team]` is not restored (both sides
are already normalized multi-element lists, so the claim's list-vs-scalar
and dedup/empty allowances do not reconcile them). -/
theorem toggle_twice_counterexample :
    queryBuilderReducer ⟨("assigned:[me,team]").data⟩
        (QueryBuilderAction.toggleFilterValue assignedListToken
          (("me").data)) =
      ⟨("assigned:team").data⟩
    ∧ queryBuilderReducer ⟨("assigned:team").data⟩
        (QueryBuilderAction.toggleFilterValue assignedTeamToken
          (("me").data)) =
      ⟨("assigned:[team,me]").data⟩
    ∧ ("assigned:[team,me]").data ≠ ("assigned:[me,team]").data
    ∧ toggleTwice (ValueContent.list [("me").data, ("team").data])
        (("me").data) = [("team").data, ("me").data]
    ∧ contentNorm (ValueContent.list [("me").data, ("team").data]) =
        [("me").data, ("team").data] :=
  ⟨by decide, by decide, by decide, by decide, by decide⟩

/-- Claim C10: multi-value edits preserve the order of surviving values:
an absent candidate is appended after all existing values, removal keeps
the remaining values in original order (a sublist), deduplication keeps
the first occurrence in encounter order (`jsSetDedup (x :: l)` keeps this
`x` and drops later occurrences), list items with a missing nested value
read as the empty string, and empty strings are dropped by
serialization. -/
theorem multi_select_order_spec :
    (∀ l : List QStr, (jsSetDedup l).Sublist l ∧ (jsSetDedup l).Nodup ∧
      ∀ a : QStr, a ∈ jsSetDedup l ↔ a ∈ l)
    ∧ (∀ (x : QStr) (l : List QStr),
        jsSetDedup (x :: l) = x :: jsSetDedup (l.filter (fun y => y ≠ x)))
    ∧ (∀ (values : List QStr) (v : QStr), v ∉ values →
        multiSelectValues (ValueContent.list values) v = values ++ [v])
    ∧ (∀ (values : List QStr) (v : QStr), v ∈ values →
        multiSelectValues (ValueContent.list values) v =
            values.filter (fun x => x ≠ v)
          ∧ (values.filter (fun x => x ≠ v)).Sublist values)
    ∧ (∀ (loc : Location) (tx : QStr) (items : List (Option QStr)),
        contentOf ({ location := loc, text := tx,
                     kind := ValueKind.textList items }) =
          ValueContent.list (items.map (fun item => item.getD [])))
    ∧ (∀ values : List QStr,
        serializeMultiValueList values =
          serializeMultiValueList (values.filter (fun x => x ≠ []))) := by
  refine ⟨?_, jsSetDedup_cons, ?_, ?_, fun _ _ _ => rfl, ?_⟩
  · intro l
    exact ⟨jsSetDedup_sublist l, nodup_jsSetDedup l, fun a => mem_jsSetDedup⟩
  · intro values v hv
    simp [multiSelectValues, hv]
  · intro values v hv
    exact ⟨by simp [multiSelectValues, hv], List.filter_sublist _⟩
  · intro values
    have huniq : uniqNonEmpty (values.filter (fun x => x ≠ [])) =
        uniqNonEmpty values := by
      unfold uniqNonEmpty
      congr 1
      rw [List.filter_filter]
      apply List.filter_congr
      intro a _
      by_cases h : a = [] <;> simp [h, List.length_pos]
    simp only [serializeMultiValueList, huniq]

/-- Witness for `multi_select_order_spec`: appending an absent value and
removing a present one at concrete inputs. -/
theorem multi_select_order_witness :
    multiSelectValues (ValueContent.list [("me").data]) (("team").data) =
        [("me").data] ++ [("team").data]
    ∧ multiSelectValues (ValueContent.list [("me").data, ("team").data])
        (("me").data) =
      [("me").data, ("team").data].filter (fun x => x ≠ ("me").data) := by
  constructor
  · exact multi_select_order_spec.2.2.1 [("me").data] (("team").data)
      (by decide)
  · exact (multi_select_order_spec.2.2.2.1 [("me").data, ("team").data]
      (("me").data) (by decide)).1
